import Mathlib

/-!
Verification development for scripts/extract-campground.py.

The script extracts campground entries from guidebook PDF pages, attributes
hyperlinks to fields by vertical position, and persists verified entries into
a JSON store with deduplication by (city, state, campground name).

The embedding below translates the pure logic of the script into Lean:
page text is a string (the PDF text-extraction collaborator is out of scope),
positioned words and page links are explicit lists, the Python regular
expressions used by the script are implemented as deterministic backtracking
matchers with the exact semantics of the patterns in the source, and the
JSON store is a list of association-list records.  Vertical coordinates are
modelled as integers: the attribution logic only compares and shifts them,
so no claim depends on floating-point behaviour.  Python exceptions raised
by the save path (KeyError on a missing key) are modelled with Except.
-/

set_option linter.unusedVariables false

/-! Section 1: character and string utilities mirroring Python primitives. -/

/-- Whitespace per the Python regex class backslash-s and str.strip (ASCII range). -/
def isPySpace (c : Char) : Bool :=
  c = ' ' || c = '\t' || c = '\n' || c = '\x0b' || c = '\x0c' || c = '\r'

def isUpperAZ (c : Char) : Bool := 'A' ≤ c && c ≤ 'Z'

def isAlphaAZ (c : Char) : Bool := ('A' ≤ c && c ≤ 'Z') || ('a' ≤ c && c ≤ 'z')

/-- Python str.strip with no argument: remove leading and trailing whitespace. -/
def pyStrip (s : String) : String :=
  ⟨((s.data.dropWhile isPySpace).reverse.dropWhile isPySpace).reverse⟩

/-- Python text.split of a string on the newline separator. -/
def splitNl : List Char → List (List Char)
  | [] => [[]]
  | c :: rest =>
    if c = '\n' then [] :: splitNl rest
    else
      match splitNl rest with
      | [] => [[c]]
      | l :: ls => (c :: l) :: ls

def lineSplit (s : String) : List String := (splitNl s.data).map (fun l => ⟨l⟩)

/-- The inverse join used by the script when it stores an entry text block. -/
def joinLines (ls : List String) : String := String.intercalate "\n" ls

/-- Python str.startswith on character lists (pattern first). -/
def startsWithL : List Char → List Char → Bool
  | [], _ => true
  | _ :: _, [] => false
  | p :: ps, c :: cs => p = c && startsWithL ps cs

/-- Python substring containment, the form pat in s. -/
def hasSub (pat : List Char) : List Char → Bool
  | [] => startsWithL pat []
  | c :: rest => startsWithL pat (c :: rest) || hasSub pat rest

/-- Prefix of s before the first occurrence of pat; all of s when pat is absent.
This is Python text.split(pat) taken at index zero. -/
def beforeSub (pat : List Char) : List Char → List Char
  | [] => []
  | c :: rest => if startsWithL pat (c :: rest) then [] else c :: beforeSub pat rest

/-- Python str.rstrip with argument a period: drop every trailing period. -/
def rstripDots (l : List Char) : List Char :=
  (l.reverse.dropWhile (fun c => c = '.')).reverse

/-- The cleanup value.strip().rstrip(period) applied by the script to campground
and trail names and to CG notes. -/
def stripName (s : String) : String := ⟨rstripDots (pyStrip s).data⟩

/-- ASCII lowercase, the part of Python str.lower the keyword test relies on. -/
def asciiLower (c : Char) : Char :=
  if 'A' ≤ c && c ≤ 'Z' then Char.ofNat (c.toNat + 32) else c

def lowerStr (s : String) : String := ⟨s.data.map asciiLower⟩

/-! Section 2: the heading pattern of find_entries_on_page (line 80 of the script).

The Python pattern anchored on the stripped line is
a capitalized run over letters, whitespace, periods and apostrophes, a comma,
whitespace, two uppercase letters, and an optional parenthesized uppercase
hookup letter.  Since a comma can not occur inside the first character class
and an opening parenthesis is not whitespace, the backtracking search of the
Python engine is deterministic and the matcher below reproduces it exactly. -/

def cityChar (c : Char) : Bool := isAlphaAZ c || isPySpace c || c = '.' || c = '\''

def headingMatch (s : List Char) : Option (List Char × List Char × Option Char) :=
  match s with
  | [] => none
  | c0 :: rest =>
    if isUpperAZ c0 then
      let run := rest.takeWhile cityChar
      let after := rest.drop run.length
      if run.length ≥ 1 then
        match after with
        | ',' :: afterComma =>
          let ws := afterComma.takeWhile isPySpace
          let t := afterComma.drop ws.length
          if ws.length ≥ 1 then
            match t with
            | a :: b :: t2 =>
              if isUpperAZ a && isUpperAZ b then
                match t2 with
                | [] => some (c0 :: run, [a, b], none)
                | _ :: _ =>
                  let ws2 := t2.takeWhile isPySpace
                  let u := t2.drop ws2.length
                  if ws2.length ≥ 1 then
                    match u with
                    | '(' :: h :: ')' :: [] =>
                      if isUpperAZ h then some (c0 :: run, [a, b], some h) else none
                    | _ => none
                  else none
              else none
            | _ => none
          else none
        | _ => none
      else none
    else none

/-- A line starts a new entry when the heading pattern matches its stripped text. -/
def isHeading (l : String) : Bool := (headingMatch (pyStrip l).data).isSome

/-- Footer test of find_entries_on_page (line 95): the site attribution string
occurs in the raw line, or the stripped line starts with the page marker. -/
def isFooterLine (l : String) : Bool :=
  hasSub "RVingwithBikes.Com".data l.data || startsWithL "Page ".data (pyStrip l).data

/-! Section 3: entry segmentation, find_entries_on_page (lines 67 to 108). -/

/-- One entry block.  The script stores the newline join of the accumulated
lines; the embedding keeps the line list (the joined form is joinLines text). -/
structure EntryBlock where
  start_line : Nat
  text : List String
deriving Repr, DecidableEq

/-- The accumulator is the in-progress entry: its start line and its lines,
exactly the pair current_entry_start, current_entry_lines of the script. -/
def findEntriesAux : Nat → Option (Nat × List String) → List String → List EntryBlock
  | _, none, [] => []
  | _, some (st, cur), [] => [⟨st, cur⟩]
  | i, acc, l :: ls =>
    if isHeading l then
      (match acc with
        | some (st, cur) => [⟨st, cur⟩]
        | none => []) ++ findEntriesAux (i+1) (some (i, [l])) ls
    else
      match acc with
      | none => findEntriesAux (i+1) none ls
      | some (st, cur) =>
        if isFooterLine l then findEntriesAux (i+1) (some (st, cur)) ls
        else findEntriesAux (i+1) (some (st, cur ++ [l])) ls

def find_entries_on_page (text : String) : List EntryBlock :=
  findEntriesAux 0 none (lineSplit text)

/-- Indices, counted from i, of the lines matching the heading pattern. -/
def headingIdxsFrom : Nat → List String → List Nat
  | _, [] => []
  | i, l :: ls => if isHeading l then i :: headingIdxsFrom (i+1) ls else headingIdxsFrom (i+1) ls

/-! Section 4: properties of segmentation (claim C1). -/

theorem headingIdxsFrom_length (ls : List String) :
    ∀ i, (headingIdxsFrom i ls).length = (ls.filter (fun l => isHeading l)).length := by
  induction ls with
  | nil => intro i; simp [headingIdxsFrom]
  | cons l ls ih =>
    intro i
    by_cases h : isHeading l = true <;>
      simp [headingIdxsFrom, h, List.filter_cons, ih]

theorem findEntriesAux_map_start (ls : List String) :
    ∀ (i : Nat) (acc : Option (Nat × List String)),
      (findEntriesAux i acc ls).map EntryBlock.start_line =
        (match acc with | some p => [p.1] | none => []) ++ headingIdxsFrom i ls := by
  induction ls with
  | nil =>
    intro i acc
    rcases acc with _ | ⟨st, cur⟩ <;> simp [findEntriesAux, headingIdxsFrom]
  | cons l ls ih =>
    intro i acc
    by_cases h : isHeading l = true
    · rcases acc with _ | ⟨st, cur⟩ <;>
        simp [findEntriesAux, headingIdxsFrom, h, ih]
    · rcases acc with _ | ⟨st, cur⟩
      · simp [findEntriesAux, headingIdxsFrom, h, ih]
      · by_cases hf : isFooterLine l = true <;>
          simp [findEntriesAux, headingIdxsFrom, h, hf, ih]

/-- Invariant on the in-progress accumulator: any footer-looking line already
collected is a heading line (namely the block heading itself). -/
def accOK : Option (Nat × List String) → Prop
  | none => True
  | some (_, cur) => ∀ l ∈ cur, isFooterLine l = true → isHeading l = true

theorem findEntriesAux_footer (ls : List String) :
    ∀ (i : Nat) (acc : Option (Nat × List String)), accOK acc →
      ∀ b ∈ findEntriesAux i acc ls, ∀ l ∈ b.text,
        isFooterLine l = true → isHeading l = true := by
  induction ls with
  | nil =>
    intro i acc hacc b hb
    rcases acc with _ | ⟨st, cur⟩
    · simp [findEntriesAux] at hb
    · simp [findEntriesAux] at hb
      subst hb
      exact hacc
  | cons l ls ih =>
    intro i acc hacc b hb
    by_cases h : isHeading l = true
    · rcases acc with _ | ⟨st, cur⟩
      · simp [findEntriesAux, h] at hb
        refine ih (i+1) (some (i, [l])) ?_ b hb
        intro x hx hfx
        simp at hx
        subst hx
        exact h
      · simp [findEntriesAux, h] at hb
        rcases hb with hb | hb
        · subst hb
          exact hacc
        · refine ih (i+1) (some (i, [l])) ?_ b hb
          intro x hx hfx
          simp at hx
          subst hx
          exact h
    · rcases acc with _ | ⟨st, cur⟩
      · simp [findEntriesAux, h] at hb
        exact ih _ none (by simp [accOK]) b hb
      · by_cases hf : isFooterLine l = true
        · simp [findEntriesAux, h, hf] at hb
          exact ih _ _ hacc b hb
        · simp [findEntriesAux, h, hf] at hb
          refine ih _ _ ?_ b hb
          intro x hx hfx
          rcases List.mem_append.mp hx with hx | hx
          · exact hacc x hx hfx
          · simp at hx
            subst hx
            exact absurd hfx (by simp [hf])

/-- Claim C1, amended.  For every page text, segmentation returns exactly one
entry block per line matching the heading pattern, in the order the headings
appear, each block start_line equal to its heading line index, and a page with
zero heading lines yields an empty list.  Footer lines are absent from every
block text, except that a line which matches both the footer test and the
heading pattern starts its own block and therefore appears in it. -/
theorem C1_segmentation (text : String) :
    (find_entries_on_page text).map EntryBlock.start_line = headingIdxsFrom 0 (lineSplit text)
    ∧ (find_entries_on_page text).length
        = ((lineSplit text).filter (fun l => isHeading l)).length
    ∧ ((∀ l ∈ lineSplit text, isHeading l = false) → find_entries_on_page text = [])
    ∧ (∀ b ∈ find_entries_on_page text, ∀ l ∈ b.text,
        isFooterLine l = true → isHeading l = true) := by
  have hmap : (find_entries_on_page text).map EntryBlock.start_line
      = headingIdxsFrom 0 (lineSplit text) := by
    simpa [find_entries_on_page] using findEntriesAux_map_start (lineSplit text) 0 none
  have hlen : (find_entries_on_page text).length
      = ((lineSplit text).filter (fun l => isHeading l)).length := by
    have h := congrArg List.length hmap
    simpa [headingIdxsFrom_length] using h
  refine ⟨hmap, hlen, ?_, ?_⟩
  · intro hall
    have hfil : ((lineSplit text).filter (fun l => isHeading l)) = [] := by
      refine List.filter_eq_nil_iff.mpr ?_
      intro a ha
      simp [hall a ha]
    have : (find_entries_on_page text).length = 0 := by rw [hlen, hfil]; rfl
    exact List.eq_nil_of_length_eq_zero this
  · exact findEntriesAux_footer (lineSplit text) 0 none (by simp [accOK])

/-- Witness for claim C1: applying the theorem to a concrete page with no
heading lines, discharging the hypothesis by evaluation. -/
theorem C1_segmentation_witness :
    find_entries_on_page "just text\nPage 3" = [] :=
  (C1_segmentation "just text\nPage 3").2.2.1 (by decide)

/-- Counterexample to claim C1 as stated: a line carrying the site-attribution
string can itself match the heading pattern; it then starts a block and the
footer line is present in that block text, contradicting the claim that footer
lines are absent from every block text. -/
theorem C1_counterexample :
    find_entries_on_page "RVingwithBikes.Com, AB"
        = [⟨0, ["RVingwithBikes.Com, AB"]⟩]
    ∧ isFooterLine "RVingwithBikes.Com, AB" = true := by
  constructor
  · rfl
  · rfl

/-! Section 5: the trail pattern (line 182 of the script).

The Python call is re.findall of the pattern: literal Trail with colon, then
greedy whitespace, then a lazy group of one or more non-newline characters,
then an optional period, then greedy whitespace, then a newline or the end of
the text.  The functions below implement the backtracking search of the
Python engine literally: greedy pieces try the longest alternative first and
fall back, the lazy group extends one character at a time. -/

/-- Matches greedy whitespace followed by a newline or the end of text, at the
head of the list; returns the remaining suffix after the consumed part. -/
def matchWsDollar : List Char → Option (List Char)
  | [] => some []
  | c :: rest =>
    if isPySpace c then
      match matchWsDollar rest with
      | some r => some r
      | none => if c = '\n' then some rest else none
    else none

/-- Matches the optional period (tried first, then skipped) and then the
whitespace-then-newline-or-end tail. -/
def matchDotTail : List Char → Option (List Char)
  | [] => matchWsDollar []
  | c :: rest =>
    if c = '.' then
      match matchWsDollar rest with
      | some r => some r
      | none => matchWsDollar (c :: rest)
    else matchWsDollar (c :: rest)

/-- The lazy group: takes one non-newline character at a time and, after each,
tries the tail; returns the captured group and the remaining suffix. -/
def matchLazyDot (acc : List Char) : List Char → Option (List Char × List Char)
  | [] => none
  | c :: rest =>
    if c = '\n' then none
    else
      match matchDotTail rest with
      | some r => some (acc ++ [c], r)
      | none => matchLazyDot (acc ++ [c]) rest

/-- Greedy whitespace before the lazy group: consume as much as possible,
backtracking one character at a time. -/
def greedyWsTrail : List Char → Option (List Char × List Char)
  | [] => matchLazyDot [] []
  | c :: rest =>
    if isPySpace c then
      match greedyWsTrail rest with
      | some r => some r
      | none => matchLazyDot [] (c :: rest)
    else matchLazyDot [] (c :: rest)

/-- One attempt of the full trail pattern at the head of the suffix. -/
def tryTrailAt (s : List Char) : Option (List Char × List Char) :=
  if startsWithL "Trail:".data s then greedyWsTrail (s.drop 6) else none

theorem matchWsDollar_length :
    ∀ s r, matchWsDollar s = some r → r.length ≤ s.length := by
  intro s
  induction s with
  | nil => intro r h; simp [matchWsDollar] at h; simp [← h]
  | cons c rest ih =>
    intro r h
    simp only [matchWsDollar] at h
    by_cases hc : isPySpace c = true
    · rw [if_pos hc] at h
      cases hm : matchWsDollar rest with
      | some r2 =>
        rw [hm] at h
        cases h
        exact le_trans (ih _ hm) (Nat.le_succ _)
      | none =>
        rw [hm] at h
        by_cases hn : c = '\n'
        · rw [if_pos hn] at h
          cases h
          exact Nat.le_succ _
        · rw [if_neg hn] at h
          cases h
    · rw [if_neg hc] at h
      cases h

theorem matchDotTail_length :
    ∀ s r, matchDotTail s = some r → r.length ≤ s.length := by
  intro s r h
  cases s with
  | nil => exact matchWsDollar_length _ _ h
  | cons c rest =>
    simp only [matchDotTail] at h
    by_cases hc : c = '.'
    · rw [if_pos hc] at h
      cases hm : matchWsDollar rest with
      | some r2 =>
        rw [hm] at h
        cases h
        exact le_trans (matchWsDollar_length _ _ hm) (Nat.le_succ _)
      | none =>
        rw [hm] at h
        exact matchWsDollar_length _ _ h
    · rw [if_neg hc] at h
      exact matchWsDollar_length _ _ h

theorem matchLazyDot_length :
    ∀ s acc cap r, matchLazyDot acc s = some (cap, r) → r.length < s.length := by
  intro s
  induction s with
  | nil => intro acc cap r h; simp [matchLazyDot] at h
  | cons c rest ih =>
    intro acc cap r h
    simp only [matchLazyDot] at h
    by_cases hn : c = '\n'
    · rw [if_pos hn] at h; cases h
    · rw [if_neg hn] at h
      cases hm : matchDotTail rest with
      | some r2 =>
        rw [hm] at h
        cases h
        exact Nat.lt_succ_of_le (matchDotTail_length _ _ hm)
      | none =>
        rw [hm] at h
        exact Nat.lt_succ_of_lt (ih _ _ _ h)

theorem greedyWsTrail_length :
    ∀ s cap r, greedyWsTrail s = some (cap, r) → r.length < s.length := by
  intro s
  induction s with
  | nil => intro cap r h; simp [greedyWsTrail, matchLazyDot] at h
  | cons c rest ih =>
    intro cap r h
    simp only [greedyWsTrail] at h
    by_cases hc : isPySpace c = true
    · rw [if_pos hc] at h
      cases hm : greedyWsTrail rest with
      | some p =>
        rw [hm] at h
        cases h
        exact Nat.lt_succ_of_lt (ih _ _ hm)
      | none =>
        rw [hm] at h
        exact matchLazyDot_length _ _ _ _ h
    · rw [if_neg hc] at h
      exact matchLazyDot_length _ _ _ _ h

theorem tryTrailAt_length :
    ∀ s cap r, tryTrailAt s = some (cap, r) → r.length < s.length := by
  intro s cap r h
  simp only [tryTrailAt] at h
  by_cases hp : startsWithL "Trail:".data s = true
  · rw [if_pos hp] at h
    have h1 := greedyWsTrail_length _ _ _ h
    have h2 : (s.drop 6).length ≤ s.length := by
      simp [List.length_drop]
    omega
  · rw [if_neg hp] at h
    cases h

/-- The re.findall scan with explicit fuel: non-overlapping matches from left
to right, advancing one character when the pattern does not match at the
current position.  A successful match consumes at least one character, so a
fuel equal to the length of the suffix is always sufficient; the fuel keeps
the recursion structural so that concrete inputs evaluate by reduction. -/
def findallTrailFuel : Nat → List Char → List (List Char)
  | 0, _ => []
  | _ + 1, [] => []
  | fuel + 1, c :: rest =>
    match tryTrailAt (c :: rest) with
    | some (cap, after) => cap :: findallTrailFuel fuel after
    | none => findallTrailFuel fuel rest

/-- The re.findall scan of the trail pattern over a text. -/
def findallTrail (s : List Char) : List (List Char) := findallTrailFuel s.length s

/-- The fuel bound is adequate: any fuel at least the length of the suffix
computes the same match list, so findallTrail is the fixpoint semantics of
the scan. -/
theorem findallTrailFuel_adequate (fuel : Nat) :
    ∀ s : List Char, s.length ≤ fuel → findallTrailFuel fuel s = findallTrail s := by
  induction fuel using Nat.strong_induction_on with
  | _ fuel ih =>
    intro s hs
    match fuel, s with
    | 0, s =>
      have : s = [] := List.eq_nil_of_length_eq_zero (Nat.le_zero.mp hs)
      subst this
      rfl
    | m + 1, [] => rfl
    | m + 1, c :: rest =>
      have hrest : rest.length ≤ m := by simpa using hs
      cases htry : tryTrailAt (c :: rest) with
      | some p =>
        obtain ⟨cap, after⟩ := p
        have hlt : after.length < (c :: rest).length := tryTrailAt_length _ _ _ htry
        have hafter_m : after.length ≤ m := by simp at hlt; omega
        have hafter_r : after.length ≤ rest.length := by simp at hlt; omega
        have e1 : findallTrailFuel (m + 1) (c :: rest) = cap :: findallTrailFuel m after := by
          simp [findallTrailFuel, htry]
        have e2 : findallTrail (c :: rest) = cap :: findallTrailFuel rest.length after := by
          simp [findallTrail, findallTrailFuel, htry]
        rw [e1, e2, ih m (Nat.lt_succ_self m) after hafter_m,
          ih rest.length (Nat.lt_succ_of_le hrest) after hafter_r]
      | none =>
        have e1 : findallTrailFuel (m + 1) (c :: rest) = findallTrailFuel m rest := by
          simp [findallTrailFuel, htry]
        have e2 : findallTrail (c :: rest) = findallTrailFuel rest.length rest := by
          simp [findallTrail, findallTrailFuel, htry]
        rw [e1, e2, ih m (Nat.lt_succ_self m) rest hrest,
          ih rest.length (Nat.lt_succ_of_le hrest) rest le_rfl]

/-! Section 6: links, positioned words and band matching (lines 25 to 64). -/

structure Link where
  uri : String
  y_top : Int
  y_bottom : Int
deriving Repr, DecidableEq

structure Word where
  text : String
  top : Int
deriving Repr, DecidableEq

/-- find_link_for_position (lines 59 to 64): the first link whose widened
vertical band contains the given coordinate, if any. -/
def find_link_for_position : List Link → Int → Option String
  | [], _ => none
  | lk :: rest, text_y =>
    if lk.y_top - 5 ≤ text_y ∧ text_y ≤ lk.y_bottom + 5 then some lk.uri
    else find_link_for_position rest text_y

/-- Band containment as a boolean predicate on links. -/
def bandContains (y : Int) (lk : Link) : Bool :=
  decide (lk.y_top - 5 ≤ y) && decide (y ≤ lk.y_bottom + 5)

/-! Section 7: the campground name pattern (line 154).  Same shape as the
trail pattern but terminated by a mandatory literal newline, searched once
from the left (re.search). -/

def matchWsNl : List Char → Option (List Char)
  | [] => none
  | c :: rest =>
    if isPySpace c then
      match matchWsNl rest with
      | some r => some r
      | none => if c = '\n' then some rest else none
    else none

def matchDotTailNl : List Char → Option (List Char)
  | [] => matchWsNl []
  | c :: rest =>
    if c = '.' then
      match matchWsNl rest with
      | some r => some r
      | none => matchWsNl (c :: rest)
    else matchWsNl (c :: rest)

def matchLazyDotNl (acc : List Char) : List Char → Option (List Char)
  | [] => none
  | c :: rest =>
    if c = '\n' then none
    else
      match matchDotTailNl rest with
      | some _ => some (acc ++ [c])
      | none => matchLazyDotNl (acc ++ [c]) rest

def greedyWsCamp : List Char → Option (List Char)
  | [] => matchLazyDotNl [] []
  | c :: rest =>
    if isPySpace c then
      match greedyWsCamp rest with
      | some r => some r
      | none => matchLazyDotNl [] (c :: rest)
    else matchLazyDotNl [] (c :: rest)

/-- re.search of the campground pattern: leftmost position where the whole
pattern matches; the returned value is the captured group. -/
def searchCampground : List Char → Option (List Char)
  | [] => none
  | c :: rest =>
    if startsWithL "Campground:".data (c :: rest) then
      match greedyWsCamp ((c :: rest).drop 11) with
      | some cap => some cap
      | none => searchCampground rest
    else searchCampground rest

/-! Section 8: the CG Notes pattern (line 174): lazy dot-all group of one or
more characters, terminated by a lookahead at one of the boundary labels, at
a newline before the site attribution marker, or at the end of the text.
With re.DOTALL in force the lazy group may cross newlines, and the dollar
anchor also matches just before a final trailing newline. -/

def cgNotesBoundary (s : List Char) : Bool :=
  startsWithL "\nTrail:".data s || startsWithL "\nTrail Notes:".data s ||
  startsWithL "\nDirections:".data s || startsWithL "\nOther:".data s ||
  startsWithL "\nRelated".data s || startsWithL "\nContributor:".data s ||
  startsWithL "\nRVingwithBikes".data s || s.isEmpty || s = ['\n']

def lazyUntilB (acc : List Char) : List Char → Option (List Char)
  | [] => none
  | c :: rest =>
    if cgNotesBoundary rest then some (acc ++ [c]) else lazyUntilB (acc ++ [c]) rest

def greedyWsNotes : List Char → Option (List Char)
  | [] => lazyUntilB [] []
  | c :: rest =>
    if isPySpace c then
      match greedyWsNotes rest with
      | some r => some r
      | none => lazyUntilB [] (c :: rest)
    else lazyUntilB [] (c :: rest)

def searchCgNotes : List Char → Option (List Char)
  | [] => none
  | c :: rest =>
    if startsWithL "CG Notes:".data (c :: rest) then
      match greedyWsNotes ((c :: rest).drop 9) with
      | some cap => some cap
      | none => searchCgNotes rest
    else searchCgNotes rest

/-- The CG Notes field value: captured group, stripped, trailing periods
removed (line 176). -/
def cgNotesOf (text : String) : Option String :=
  (searchCgNotes text.data).map (fun cap => stripName ⟨cap⟩)

/-! Section 9: field extraction for one entry (lines 152 to 213). -/

/-- The fixed keyword list of line 165. -/
def trail_keywords : List String :=
  ["/trail/", "/trails", "traillink.com", "recreationtrails",
   "loop", "greenway", "bikeway", "pathway", "/bicycling"]

/-- Line 167: the candidate looks like a trail link when any keyword occurs
in the lowercased URI. -/
def is_trail_link (uri : String) : Bool :=
  trail_keywords.any (fun kw => hasSub kw.data (lowerStr uri).data)

/-- Lines 159 to 169: the campground link.  The anchor is the word with text
Campground: at ordinal position entry_index among such words on the page; a
falsy (empty) candidate is ignored, and a candidate matching the trail
keyword test is rejected. -/
def cgLinkForEntry (words : List Word) (links : List Link) (entry_index : Nat) : Option String :=
  let cg_words := words.filter (fun w => w.text = "Campground:")
  match cg_words[entry_index]? with
  | none => none
  | some w =>
    match find_link_for_position links w.top with
    | none => none
    | some potential_link =>
      if potential_link = "" then none
      else if is_trail_link potential_link then none
      else some potential_link

/-- Lines 152 to 171: the campground field of one entry, name plus link. -/
def campgroundField (text : String) (words : List Word) (links : List Link)
    (entry_index : Nat) : Option (String × Option String) :=
  match searchCampground text.data with
  | none => none
  | some cap => some (stripName ⟨cap⟩, cgLinkForEntry words links entry_index)

/-- Line 181: the sub-text preceding the Trail Notes label, or the whole
block when that label is absent. -/
def trailSection (text : String) : String :=
  if hasSub "Trail Notes:".data text.data then ⟨beforeSub "Trail Notes:".data text.data⟩
  else text

/-- The text block of the entry at the given index, empty when out of range
(the script guards the in-range case; the previous-entry loop of line 198
uses exactly this default). -/
def entryTextAt (pe : List EntryBlock) (i : Nat) : String :=
  match pe[i]? with
  | some b => joinLines b.text
  | none => ""

/-- Lines 195 to 200: number of trail-pattern matches in the pre-Trail-Notes
sub-text of every earlier entry on the page. -/
def prevTrailCount (pe : List EntryBlock) (entry_index : Nat) : Nat :=
  (List.range entry_index).foldl
    (fun acc ei => acc + (findallTrail (trailSection (entryTextAt pe ei)).data).length) 0

/-- Lines 182 to 206: the trail list of one entry, each with its name cleaned
and its link found through the word at ordinal offset plus local index. -/
def trailsFor (pe : List EntryBlock) (words : List Word) (links : List Link)
    (entry_index : Nat) : List (String × Option String) :=
  let text := entryTextAt pe entry_index
  let trail_matches := (findallTrail (trailSection text).data).map (fun l => (⟨l⟩ : String))
  let trail_words := words.filter (fun w => w.text = "Trail:")
  let offset := prevTrailCount pe entry_index
  trail_matches.enum.map (fun p =>
    (stripName p.2,
     match trail_words[offset + p.1]? with
     | some w => find_link_for_position links w.top
     | none => none))

/-- Lines 208 to 213: exposure of the trail list on the entry, as the pair of
the single trail field and the optional trails list field. -/
def trailFields (pe : List EntryBlock) (words : List Word) (links : List Link)
    (entry_index : Nat) : Option (String × Option String) × Option (List (String × Option String)) :=
  match trailsFor pe words links entry_index with
  | [] => (none, none)
  | [t] => (some t, none)
  | t :: ts => (some t, some (t :: ts))

/-! Section 10: link attribution properties (claims C2, C7). -/

theorem find_link_eq_find? (links : List Link) (y : Int) :
    find_link_for_position links y = (links.find? (bandContains y)).map Link.uri := by
  induction links with
  | nil => rfl
  | cons lk rest ih =>
    by_cases h : (lk.y_top - 5 ≤ y ∧ y ≤ lk.y_bottom + 5)
    · have hb : bandContains y lk = true := by
        simp [bandContains, h.1, h.2]
      show (if lk.y_top - 5 ≤ y ∧ y ≤ lk.y_bottom + 5 then some lk.uri
            else find_link_for_position rest y)
          = ((lk :: rest).find? (bandContains y)).map Link.uri
      rw [if_pos h, List.find?_cons_of_pos _ hb]
      rfl
    · have hb : bandContains y lk = false := by
        rw [Bool.eq_false_iff]
        intro ht
        simp only [bandContains, Bool.and_eq_true, decide_eq_true_eq] at ht
        exact h ht
      show (if lk.y_top - 5 ≤ y ∧ y ≤ lk.y_bottom + 5 then some lk.uri
            else find_link_for_position rest y)
          = ((lk :: rest).find? (bandContains y)).map Link.uri
      rw [if_neg h, List.find?_cons_of_neg _ (by simp [hb])]
      exact ih

/-- Claim C7: a campground link candidate whose URI contains any of the fixed
trail-indicating substrings, compared case-insensitively, is never attributed:
whatever the inputs, a produced campground link fails the keyword test. -/
theorem C7_trail_keyword_rejection (words : List Word) (links : List Link) (entry_index : Nat) :
    (cgLinkForEntry words links entry_index).all (fun u => !(is_trail_link u)) = true := by
  cases h1 : (words.filter (fun w => w.text = "Campground:"))[entry_index]? with
  | none => simp [cgLinkForEntry, h1]
  | some w =>
    cases h2 : find_link_for_position links w.top with
    | none => simp [cgLinkForEntry, h1, h2]
    | some pl =>
      by_cases h3 : pl = ""
      · simp [cgLinkForEntry, h1, h2, h3]
      · by_cases h4 : is_trail_link pl = true
        · simp [cgLinkForEntry, h1, h2, h3, h4]
        · simp [cgLinkForEntry, h1, h2, h3, h4]

/-! Section 11: trailing-period stripping (claim C8). -/

theorem dropWhile_head_not (p : Char → Bool) (l : List Char) :
    ∀ c, (l.dropWhile p).head? = some c → p c = false := by
  induction l with
  | nil => intro c h; simp [List.dropWhile] at h
  | cons a rest ih =>
    intro c h
    by_cases hp : p a = true
    · rw [List.dropWhile_cons_of_pos hp] at h
      exact ih c h
    · rw [List.dropWhile_cons_of_neg hp] at h
      simp only [List.head?_cons, Option.some.injEq] at h
      subst h
      simpa using hp

theorem stripName_no_dot (s : String) :
    ((stripName s).data.getLast? == some '.') = false := by
  rw [beq_eq_false_iff_ne]
  intro h
  have h2 : ((pyStrip s).data.reverse.dropWhile (fun c => c = '.')).head? = some '.' := by
    have := h
    rw [show (stripName s).data = rstripDots (pyStrip s).data from rfl] at this
    rw [rstripDots, List.getLast?_reverse] at this
    exact this
  have h3 := dropWhile_head_not _ _ _ h2
  simp at h3

/-- Claim C8, amended: for every extracted campground name, trail name and CG
notes value, all trailing periods are stripped (the matching pattern may have
consumed one and rstrip removes the rest), so an extracted value never ends
in a period. -/
theorem C8_trailing_periods (text : String) (pe : List EntryBlock)
    (words : List Word) (links : List Link) (i : Nat) :
    (campgroundField text words links i).all (fun p => !(p.1.data.getLast? == some '.')) = true
    ∧ (trailsFor pe words links i).all (fun p => !(p.1.data.getLast? == some '.')) = true
    ∧ (cgNotesOf text).all (fun v => !(v.data.getLast? == some '.')) = true := by
  refine ⟨?_, ?_, ?_⟩
  · cases h : searchCampground text.data with
    | none => simp [campgroundField, h]
    | some cap => simp [campgroundField, h, stripName_no_dot]
  · rw [List.all_eq_true]
    intro p hp
    simp only [trailsFor, List.mem_map] at hp
    obtain ⟨q, hq, rfl⟩ := hp
    simp [stripName_no_dot]
  · cases h : searchCgNotes text.data with
    | none => simp [cgNotesOf, h]
    | some cap => simp [cgNotesOf, h, stripName_no_dot]

/-- Modelled from the claim wording of C8: strip exactly one trailing period
when present. -/
def claim_strip_one_period (s : String) : String :=
  if s.data.getLast? == some '.' then ⟨s.data.dropLast⟩ else s

/-- Counterexample to claim C8 as stated: a campground name written Foo with
two trailing periods in the page text loses both periods (the name pattern
consumes one and rstrip removes every remaining one), while the claim, which
strips exactly one, predicts that the name keeps one period. -/
theorem C8_counterexample :
    campgroundField "Campground: Foo..\n" [] [] 0 = some ("Foo", none)
    ∧ claim_strip_one_period "Foo.." = "Foo."
    ∧ ("Foo" : String) ≠ "Foo." := by
  refine ⟨rfl, rfl, by decide⟩

/-! Section 12: multi-trail capture and exposure (claim C3). -/

theorem enumFrom_map_snd_map {α β : Type} (f : α → β) :
    ∀ (n : Nat) (L : List α), (L.enumFrom n).map (fun p => f p.2) = L.map f := by
  intro n L
  induction L generalizing n with
  | nil => rfl
  | cons a L ih => simp [List.enumFrom, ih]

/-- Claim C3, amended.  The trail names of an entry are the matches of the
trail pattern over the pre-Trail-Notes sub-text, cleaned, in source order
(a match may start mid-line, and a label at the end of a line folds the next
line into its captured name); with exactly one captured trail only the single
trail field is set; with more than one, the ordered list is exposed and the
single field duplicates its first element. -/
theorem C3_trails_exposure (pe : List EntryBlock) (words : List Word)
    (links : List Link) (i : Nat) :
    ((trailsFor pe words links i).map Prod.fst
        = (findallTrail (trailSection (entryTextAt pe i)).data).map
            (fun l => stripName ⟨l⟩))
    ∧ (trailsFor pe words links i = [] → trailFields pe words links i = (none, none))
    ∧ (∀ t, trailsFor pe words links i = [t] →
        trailFields pe words links i = (some t, none))
    ∧ (∀ t t2 rest, trailsFor pe words links i = t :: t2 :: rest →
        trailFields pe words links i = (some t, some (t :: t2 :: rest))) := by
  refine ⟨?_, ?_, ?_, ?_⟩
  · simp only [trailsFor, List.map_map]
    have h1 : ∀ (L : List String),
        L.enum.map (fun p => stripName p.2) = L.map stripName := by
      intro L
      exact enumFrom_map_snd_map stripName 0 L
    have h2 := h1 ((findallTrail (trailSection (entryTextAt pe i)).data).map
        (fun l => (⟨l⟩ : String)))
    rw [List.map_map] at h2
    exact h2
  · intro h
    simp [trailFields, h]
  · intro t h
    simp [trailFields, h]
  · intro t t2 rest h
    simp [trailFields, h]

/-- Modelled from the claim wording of C3: the trails named by the LINES of
the pre-Trail-Notes sub-text that have the form of the Trail label followed
by a nonempty name. -/
def claim_line_trails (text : String) : List String :=
  (lineSplit (trailSection text)).filterMap (fun l =>
    if startsWithL "Trail:".data (pyStrip l).data then
      let nm := stripName ⟨(pyStrip l).data.drop 6⟩
      if nm = "" then none else some nm
    else none)

/-- Counterexample to claim C3 as stated: in a block whose first line is the
bare Trail label and whose second line matches the Trail name form, the
second line is not captured as its own trail with its own name; the scan
folds the two lines into one capture whose name retains the second label
text, so the single trail field differs from the name the claim predicts. -/
theorem C3_counterexample :
    (trailsFor [⟨0, ["Trail:", "Trail: B"]⟩] [] [] 0).map Prod.fst = ["Trail: B"]
    ∧ trailFields [⟨0, ["Trail:", "Trail: B"]⟩] [] [] 0 = (some ("Trail: B", none), none)
    ∧ claim_line_trails (entryTextAt [⟨0, ["Trail:", "Trail: B"]⟩] 0) = ["B"]
    ∧ (["Trail: B"] : List String) ≠ ["B"] := by
  refine ⟨rfl, rfl, rfl, by decide⟩

/-! Section 13: anchor-word attribution (claim C2). -/

/-- Count of occurrences of a pattern in a text (any position). -/
def countSubOcc (pat : List Char) : List Char → Nat
  | [] => 0
  | c :: rest => (if startsWithL pat (c :: rest) then 1 else 0) + countSubOcc pat rest

/-- Modelled from the claim wording of C2: for the campground link the anchor
ordinal is the count of Campground label occurrences in all earlier entries
on the same page (the campground field has local index zero in its entry). -/
def claim_cg_anchor (pe : List EntryBlock) (i : Nat) : Nat :=
  (List.range i).foldl
    (fun acc ei => acc + countSubOcc "Campground:".data (entryTextAt pe ei).data) 0

/-- Modelled from the claim wording of C2: the link selected for the
campground field is the first link whose widened band contains the vertical
coordinate of the anchor word, or none if no band matches. -/
def claim_cg_link (pe : List EntryBlock) (words : List Word) (links : List Link)
    (i : Nat) : Option String :=
  match (words.filter (fun w => w.text = "Campground:"))[claim_cg_anchor pe i]? with
  | some w => (links.find? (bandContains w.top)).map Link.uri
  | none => none

/-- Claim C2, amended.  Selected links are always the first link whose
widened band contains the anchor coordinate.  For each trail field the anchor
is the Trail label word at ordinal position offset plus local index, offset
counting the trail-pattern matches in the pre-Trail-Notes sub-texts of all
earlier entries on the page.  For the campground field the anchor ordinal is
the entry index itself (the count of earlier entries on the page, not the
count of label occurrences in them), and the candidate is dropped when falsy
or when it matches the trail keyword test. -/
theorem C2_attribution :
    (∀ (links : List Link) (y : Int),
        find_link_for_position links y = (links.find? (bandContains y)).map Link.uri)
    ∧ (∀ (words : List Word) (links : List Link) (i : Nat),
        cgLinkForEntry words links i
          = ((words.filter (fun w => w.text = "Campground:"))[i]?).bind (fun w =>
              ((links.find? (bandContains w.top)).map Link.uri).bind (fun pl =>
                if pl = "" then none
                else if is_trail_link pl then none
                else some pl)))
    ∧ (∀ (pe : List EntryBlock) (words : List Word) (links : List Link)
        (i j : Nat) (cap : List Char),
        (findallTrail (trailSection (entryTextAt pe i)).data)[j]? = some cap →
        (trailsFor pe words links i)[j]?
          = some (stripName ⟨cap⟩,
              ((words.filter (fun w => w.text = "Trail:"))[prevTrailCount pe i + j]?).bind
                (fun w => (links.find? (bandContains w.top)).map Link.uri))) := by
  refine ⟨find_link_eq_find?, ?_, ?_⟩
  · intro words links i
    cases h1 : (words.filter (fun w => w.text = "Campground:"))[i]? with
    | none => simp [cgLinkForEntry, h1]
    | some w =>
      simp only [cgLinkForEntry, h1, ← find_link_eq_find?, Option.some_bind]
      cases h2 : find_link_for_position links w.top with
      | none => simp [h2]
      | some pl => simp [h2]
  · intro pe words links i j cap hj
    simp only [trailsFor, List.getElem?_map, List.getElem?_enum, hj,
      Option.map_some, ← find_link_eq_find?]
    cases h2 : (words.filter (fun w => w.text = "Trail:"))[prevTrailCount pe i + j]? with
    | none => simp [h2]
    | some w => simp [h2]

/-- Witness for the hypothesis-bearing part of the amended claim C2, at a
concrete page with one entry and one trail. -/
theorem C2_attribution_witness :
    (trailsFor [⟨0, ["Albany, NY", "Trail: A"]⟩] [⟨"Trail:", 50⟩]
        [⟨"https://tr.example/", 47, 53⟩] 0)[0]?
      = some ("A", some "https://tr.example/") := by
  have h := C2_attribution.2.2 [⟨0, ["Albany, NY", "Trail: A"]⟩] [⟨"Trail:", 50⟩]
      [⟨"https://tr.example/", 47, 53⟩] 0 0 "A".data (by rfl)
  exact h.trans (by rfl)

/-- Counterexample to claim C2 as stated: on a page whose first entry has no
Campground label and whose second entry has one, the claim anchors the
second entry at ordinal zero (no earlier occurrences) and attributes the
band-matching link, while the code anchors at the entry index one, runs out
of label words, and attributes no link at all. -/
theorem C2_counterexample :
    campgroundField
        (entryTextAt [⟨0, ["Springfield, IL", "CG Notes: nice"]⟩,
          ⟨2, ["Albany, NY", "Campground: Foo.", "CG Notes: x"]⟩] 1)
        [⟨"Campground:", 100⟩] [⟨"https://camp.example/", 95, 105⟩] 1
      = some ("Foo", none)
    ∧ claim_cg_link [⟨0, ["Springfield, IL", "CG Notes: nice"]⟩,
          ⟨2, ["Albany, NY", "Campground: Foo.", "CG Notes: x"]⟩]
        [⟨"Campground:", 100⟩] [⟨"https://camp.example/", 95, 105⟩] 1
      = some "https://camp.example/"
    ∧ ((none : Option String) ≠ some "https://camp.example/") := by
  refine ⟨rfl, rfl, by decide⟩

/-- Witness for the hypothesis-bearing part of the amended claim C3: a
concrete single-trail entry sets only the single trail field. -/
theorem C3_trails_exposure_witness :
    trailFields [⟨0, ["Albany, NY", "Trail: A"]⟩] [] [] 0 = (some ("A", none), none) :=
  (C3_trails_exposure [⟨0, ["Albany, NY", "Trail: A"]⟩] [] [] 0).2.2.1 ("A", none) (by rfl)

/-! Section 14: the store model, save_entry_to_database (lines 398 to 447).

A persisted record is an association list from field names to JSON values.
The builder first lays out every key with an optional value (the dict literal
of lines 405 to 424), then prunes the keys whose value is the Python None
(line 427).  A nested campground or trail object keeps its link slot even
when that slot is None: the prune step only inspects top-level values. -/

/-- A JSON value stored in an entry record: a string, a campground or trail
object with name and optional link, a list of trail objects, or a numeric
coordinate (the script passes coordinates through untouched, so their exact
numeric type is irrelevant and integers stand in for them). -/
inductive FieldVal where
  | str (v : String)
  | obj (name : String) (link : Option String)
  | objList (items : List (String × Option String))
  | num (v : Int)
deriving Repr, DecidableEq

/-- A persisted entry record. -/
abbrev PEntry := List (String × FieldVal)

/-- The in-memory extracted entry handed to the save routine: every field the
dict literal of lines 405 to 424 reads with entry.get. -/
structure Entry where
  city : Option String := none
  state : Option String := none
  hookup_type : Option String := none
  campground : Option (String × Option String) := none
  cg_notes : Option String := none
  trail : Option (String × Option String) := none
  trails : Option (List (String × Option String)) := none
  trail_notes : Option String := none
  directions : Option String := none
  other : Option String := none
  blog_post : Option String := none
  blog_post_link : Option String := none
  contributor : Option String := none
  contributor_blog : Option String := none
  contributor_blog_link : Option String := none
deriving Repr, DecidableEq

/-- The Coordinate Result (lines 275 to 315): either the dict built from the
first place of the response, whose five keys are always present but may hold
None values, or an error dict. -/
inductive CoordResult where
  | ok (placeId displayName formattedAddress : Option String)
      (latitude longitude : Option Int)
  | err (msg : String)
deriving Repr, DecidableEq

/-- One place of a geocoding response, already projected to the fields the
script reads (id, displayName text, formattedAddress, location). -/
structure Place where
  id : Option String := none
  displayName : Option String := none
  formattedAddress : Option String := none
  latitude : Option Int := none
  longitude : Option Int := none
deriving Repr, DecidableEq

/-- Lines 301 to 312: a response with at least one place yields the ok dict
built from the first place; an empty places list yields the error result. -/
def coordResultOfPlaces (places : List Place) : CoordResult :=
  match places with
  | [] => .err "No places found"
  | p :: _ => .ok p.id p.displayName p.formattedAddress p.latitude p.longitude

/-- The value of the expression of line 421: coordinates.get of latitude when
coordinates is truthy and carries the key, else None.  The ok dict always
carries the key (with a possibly-None value); the error dict does not. -/
def latitudeFrom : Option CoordResult → Option FieldVal
  | some (.ok _ _ _ la _) => la.map FieldVal.num
  | _ => none

def longitudeFrom : Option CoordResult → Option FieldVal
  | some (.ok _ _ _ _ lo) => lo.map FieldVal.num
  | _ => none

def placeIdFrom : Option CoordResult → Option FieldVal
  | some (.ok pid _ _ _ _) => pid.map FieldVal.str
  | _ => none

/-- The dict literal of lines 405 to 424, with every key present and the
value still optional (the Python None). -/
def final_entry_raw (entry : Entry) (coordinates : Option CoordResult) :
    List (String × Option FieldVal) :=
  [("city", entry.city.map FieldVal.str),
   ("state", entry.state.map FieldVal.str),
   ("hookup_type", some (FieldVal.str (entry.hookup_type.getD "full"))),
   ("campground", entry.campground.map (fun p => FieldVal.obj p.1 p.2)),
   ("cg_notes", entry.cg_notes.map FieldVal.str),
   ("trail", entry.trail.map (fun p => FieldVal.obj p.1 p.2)),
   ("trails", entry.trails.map FieldVal.objList),
   ("trail_notes", entry.trail_notes.map FieldVal.str),
   ("directions", entry.directions.map FieldVal.str),
   ("other", entry.other.map FieldVal.str),
   ("blog_post", entry.blog_post.map FieldVal.str),
   ("blog_post_link", entry.blog_post_link.map FieldVal.str),
   ("contributor", entry.contributor.map FieldVal.str),
   ("contributor_blog", entry.contributor_blog.map FieldVal.str),
   ("contributor_blog_link", entry.contributor_blog_link.map FieldVal.str),
   ("latitude", latitudeFrom coordinates),
   ("longitude", longitudeFrom coordinates),
   ("placeId", placeIdFrom coordinates)]

/-- Line 427: remove the keys whose value is None. -/
def prune (l : List (String × Option FieldVal)) : PEntry :=
  l.filterMap (fun p => p.2.map (fun v => (p.1, v)))

/-- Dict lookup on a persisted record (first matching key). -/
def lookupF : PEntry → String → Option FieldVal
  | [], _ => none
  | (k, v) :: rest, key => if k = key then some v else lookupF rest key

/-- Dict lookup on the raw record before pruning. -/
def lookupRaw : List (String × Option FieldVal) → String → Option (Option FieldVal)
  | [], _ => none
  | (k, v) :: rest, key => if k = key then some v else lookupRaw rest key

/-- The campground-name projection of line 433, a get with a default empty
dict followed by a get of the name key: None
when the campground key is absent, the stored name when it holds an object,
and a Python AttributeError when it holds a value with no get method. -/
def getCgName (e : PEntry) : Except String (Option String) :=
  match lookupF e "campground" with
  | some (.obj n _) => .ok (some n)
  | some _ => .error "AttributeError"
  | none => .ok none

/-- Total variant of the campground-name projection, used to state the match
condition (it agrees with getCgName whenever the latter does not fault). -/
def cgNameTotal (e : PEntry) : Option String :=
  match lookupF e "campground" with
  | some (.obj n _) => some n
  | _ => none

/-- One evaluation of the duplicate predicate of lines 430 to 433 against a
stored record, with Python evaluation order: the subscript final_entry of a
missing key raises KeyError, and the boolean and short-circuits. -/
def dupMatch (final e : PEntry) : Except String Bool :=
  match lookupF final "city" with
  | none => .error "KeyError: city"
  | some fc =>
    if lookupF e "city" = some fc then
      match lookupF final "state" with
      | none => .error "KeyError: state"
      | some fs =>
        if lookupF e "state" = some fs then
          match getCgName e with
          | .error m => .error m
          | .ok en =>
            match getCgName final with
            | .error m => .error m
            | .ok fn => .ok (en = fn)
        else .ok false
    else .ok false

/-- The generator scan of line 430: the first stored record matching the
duplicate predicate; the predicate body only runs when there is a record to
test, so an empty store never raises. -/
def scanDup (final : PEntry) : List PEntry → Except String (Option PEntry)
  | [] => .ok none
  | e :: rest =>
    match dupMatch final e with
    | .error m => .error m
    | .ok true => .ok (some e)
    | .ok false => scanDup final rest

/-- Python list.index: position of the first element equal to the target
(the script only calls it with an element of the list). -/
def idxOfP (x : PEntry) : List PEntry → Nat
  | [] => 0
  | e :: rest => if e = x then 0 else idxOfP x rest + 1

/-- save_entry_to_database (lines 398 to 447) acting on the entries list of
the store: build the final record, prune None values, replace the matching
record in place or append. -/
def save_entry_to_database (entry : Entry) (coordinates : Option CoordResult)
    (db : List PEntry) : Except String (List PEntry) :=
  let final := prune (final_entry_raw entry coordinates)
  match scanDup final db with
  | .error m => .error m
  | .ok (some ex) => .ok (db.set (idxOfP ex db) final)
  | .ok none => .ok (db ++ [final])


/-! Section 15: lookup and pruning lemmas for the store model. -/

theorem lookupF_eq_none_iff (e : PEntry) (k : String) :
    lookupF e k = none ↔ k ∉ e.map Prod.fst := by
  induction e with
  | nil => simp [lookupF]
  | cons p rest ih =>
    obtain ⟨k0, v0⟩ := p
    have hlf : lookupF ((k0, v0) :: rest) k
        = if k0 = k then some v0 else lookupF rest k := rfl
    by_cases hk : k0 = k
    · rw [hlf, if_pos hk]
      simp [List.map_cons, hk]
    · rw [hlf, if_neg hk, ih]
      simp only [List.map_cons, List.mem_cons]
      constructor
      · intro hn h
        rcases h with h | h
        · exact hk h.symm
        · exact hn h
      · intro hn h
        exact hn (Or.inr h)

theorem mem_keys_prune (l : List (String × Option FieldVal)) (k : String) :
    k ∈ (prune l).map Prod.fst ↔ ∃ v, (k, some v) ∈ l := by
  simp only [prune, List.mem_map, List.mem_filterMap]
  constructor
  · rintro ⟨⟨k1, v1⟩, ⟨⟨k2, ov⟩, hmem, hmap⟩, rfl⟩
    cases ov with
    | none => simp at hmap
    | some v =>
      have h2 : ((k2, v) : String × FieldVal) = (k1, v1) := by
        have : some ((k2, v) : String × FieldVal) = some (k1, v1) := hmap
        injection this
      have hk : k2 = k1 := congrArg Prod.fst h2
      refine ⟨v, ?_⟩
      show ((k1 : String), some v) ∈ l
      rw [← hk]
      exact hmem
  · rintro ⟨v, hv⟩
    exact ⟨(k, v), ⟨(k, some v), hv, rfl⟩, rfl⟩

theorem lookupF_prune_none_of_not_mem (l : List (String × Option FieldVal)) (k : String)
    (h : k ∉ l.map Prod.fst) : lookupF (prune l) k = none := by
  rw [lookupF_eq_none_iff]
  intro hmem
  rw [mem_keys_prune] at hmem
  obtain ⟨v, hv⟩ := hmem
  exact h (List.mem_map.mpr ⟨(k, some v), hv, rfl⟩)

theorem lookup_prune_nodup :
    ∀ (l : List (String × Option FieldVal)) (k : String), (l.map Prod.fst).Nodup →
      lookupF (prune l) k
        = (match lookupRaw l k with
           | some (some v) => some v
           | _ => none) := by
  intro l
  induction l with
  | nil => intro k h; rfl
  | cons p rest ih =>
    intro k h
    obtain ⟨k0, v0⟩ := p
    simp only [List.map_cons, List.nodup_cons] at h
    obtain ⟨hnot, hnd⟩ := h
    have hraw : lookupRaw ((k0, v0) :: rest) k
        = if k0 = k then some v0 else lookupRaw rest k := rfl
    by_cases hk : k0 = k
    · rw [hraw, if_pos hk]
      cases v0 with
      | some v =>
        have hpr : prune ((k0, some v) :: rest) = (k0, v) :: prune rest := rfl
        rw [hpr]
        have hlf : lookupF ((k0, v) :: prune rest) k
            = if k0 = k then some v else lookupF (prune rest) k := rfl
        rw [hlf, if_pos hk]
      | none =>
        have hpr : prune ((k0, (none : Option FieldVal)) :: rest) = prune rest := rfl
        rw [hpr]
        exact lookupF_prune_none_of_not_mem rest k (hk ▸ hnot)
    · rw [hraw, if_neg hk]
      cases v0 with
      | some v =>
        have hpr : prune ((k0, some v) :: rest) = (k0, v) :: prune rest := rfl
        rw [hpr]
        have hlf : lookupF ((k0, v) :: prune rest) k
            = if k0 = k then some v else lookupF (prune rest) k := rfl
        rw [hlf, if_neg hk]
        exact ih k hnd
      | none =>
        have hpr : prune ((k0, (none : Option FieldVal)) :: rest) = prune rest := rfl
        rw [hpr]
        exact ih k hnd

theorem nodup_keys_final (ent : Entry) (co : Option CoordResult) :
    ((final_entry_raw ent co).map Prod.fst).Nodup := by
  have h : (final_entry_raw ent co).map Prod.fst
      = ["city", "state", "hookup_type", "campground", "cg_notes", "trail", "trails",
         "trail_notes", "directions", "other", "blog_post", "blog_post_link",
         "contributor", "contributor_blog", "contributor_blog_link",
         "latitude", "longitude", "placeId"] := rfl
  rw [h]
  decide

/-- Lookup on the pruned record agrees with the raw optional value. -/
theorem lookupF_prune_final (ent : Entry) (co : Option CoordResult) (k : String)
    (v : Option FieldVal) (h : lookupRaw (final_entry_raw ent co) k = some v) :
    lookupF (prune (final_entry_raw ent co)) k = v := by
  rw [lookup_prune_nodup _ _ (nodup_keys_final ent co), h]
  cases v <;> rfl

/-! Section 16: pruning before persistence (claim C5). -/

/-- Claim C5, amended.  Top-level fields whose value is the Python None are
pruned: a key is present in the persisted record exactly when its raw value
before pruning is present, so the record holds no top-level null
placeholders and an empty string is not pruned.  Nested campground and trail
objects are persisted as built, so their link slot may hold an explicit None
that pruning does not remove. -/
theorem C5_pruning (ent : Entry) (co : Option CoordResult) :
    (∀ k, k ∈ (prune (final_entry_raw ent co)).map Prod.fst
        ↔ ∃ v, (k, some v) ∈ final_entry_raw ent co)
    ∧ lookupF (prune (final_entry_raw ent co)) "campground"
        = ent.campground.map (fun p => FieldVal.obj p.1 p.2)
    ∧ lookupF (prune (final_entry_raw ent co)) "trail"
        = ent.trail.map (fun p => FieldVal.obj p.1 p.2)
    ∧ lookupF (prune (final_entry_raw ent co)) "cg_notes"
        = ent.cg_notes.map FieldVal.str := by
  refine ⟨fun k => mem_keys_prune _ k, ?_, ?_, ?_⟩
  · exact lookupF_prune_final _ _ _ _ rfl
  · exact lookupF_prune_final _ _ _ _ rfl
  · exact lookupF_prune_final _ _ _ _ rfl

/-- Counterexample to claim C5 as stated: a campground extracted with no link
is persisted as an object whose link slot is an explicit None, and an empty
CG notes string survives pruning, so the persisted record does contain a
null placeholder at a nested level and an empty value. -/
theorem C5_counterexample :
    lookupF (prune (final_entry_raw
        { city := some "Asheville", state := some "NC",
          campground := some ("Lake Lure", none), cg_notes := some "" } none))
      "campground" = some (FieldVal.obj "Lake Lure" none)
    ∧ lookupF (prune (final_entry_raw
        { city := some "Asheville", state := some "NC",
          campground := some ("Lake Lure", none), cg_notes := some "" } none))
      "cg_notes" = some (FieldVal.str "") := ⟨rfl, rfl⟩

/-! Section 17: coordinate error propagation (claim C6). -/

/-- Claim C6: with an error Coordinate Result (for instance from a geocoding
response with an empty places list) or no Coordinate Result at all, the
persisted entry contains none of the latitude, longitude, placeId keys; with
an ok result each of the three keys is attached exactly when the result
carries the corresponding value. -/
theorem C6_coordinate_error_propagation (ent : Entry) (m : String)
    (pid dn fa : Option String) (la lo : Option Int) :
    coordResultOfPlaces [] = CoordResult.err "No places found"
    ∧ ("latitude" ∉ (prune (final_entry_raw ent (some (.err m)))).map Prod.fst
       ∧ "longitude" ∉ (prune (final_entry_raw ent (some (.err m)))).map Prod.fst
       ∧ "placeId" ∉ (prune (final_entry_raw ent (some (.err m)))).map Prod.fst)
    ∧ ("latitude" ∉ (prune (final_entry_raw ent none)).map Prod.fst
       ∧ "longitude" ∉ (prune (final_entry_raw ent none)).map Prod.fst
       ∧ "placeId" ∉ (prune (final_entry_raw ent none)).map Prod.fst)
    ∧ (lookupF (prune (final_entry_raw ent (some (.ok pid dn fa la lo)))) "latitude"
          = la.map FieldVal.num
       ∧ lookupF (prune (final_entry_raw ent (some (.ok pid dn fa la lo)))) "longitude"
          = lo.map FieldVal.num
       ∧ lookupF (prune (final_entry_raw ent (some (.ok pid dn fa la lo)))) "placeId"
          = pid.map FieldVal.str) := by
  refine ⟨rfl, ⟨?_, ?_, ?_⟩, ⟨?_, ?_, ?_⟩, ⟨?_, ?_, ?_⟩⟩
  all_goals first
    | exact (lookupF_eq_none_iff _ _).mp (lookupF_prune_final _ _ _ _ rfl)
    | exact lookupF_prune_final _ _ _ _ rfl

/-! Section 18: out-of-range entry index and the save path (claim C9). -/

/-- The guards of lines 130 to 135: extraction yields the empty entry when
the page has no entries or the requested index is at or past the count. -/
def extract_aborts (pe : List EntryBlock) (i : Nat) : Bool :=
  pe.isEmpty || decide (pe.length ≤ i)

/-- The empty entry dict returned by those guards. -/
def emptyExtractedEntry : Entry := {}

/-- Lines 480 to 498 of main after extraction: the hookup type is set on the
extracted entry and, when saving was requested, the save routine runs on the
store unconditionally.  Coordinates are none on this path because the empty
entry has no campground name, so the lookup of line 485 is skipped. -/
def main_after_extract (e : Entry) (hookup : String) (save : Bool)
    (co : Option CoordResult) (db : List PEntry) : Except String (List PEntry) :=
  if save then save_entry_to_database { e with hookup_type := some hookup } co db
  else .ok db

/-- Claim C9 names the intended behaviour; the code violates its no-save
part.  With the entry index out of range extraction does return the empty
entry, but main still calls the save routine when saving was requested: on
an empty store it appends a degenerate record holding only the hookup type,
and on a nonempty store the duplicate check raises KeyError. -/
theorem C9_out_of_range_save :
    extract_aborts [⟨0, ["Asheville, NC"]⟩] 1 = true
    ∧ main_after_extract emptyExtractedEntry "full" true none []
        = .ok [[("hookup_type", FieldVal.str "full")]]
    ∧ main_after_extract emptyExtractedEntry "full" true none
          [[("hookup_type", FieldVal.str "full")]]
        = .error "KeyError: city" := ⟨rfl, rfl, rfl⟩

/-! Section 19: saving an entry with no city (claim C10). -/

/-- Claim C10, amended.  Saving an entry whose city was pruned raises the
KeyError only when the store already holds at least one record, because the
duplicate predicate subscripting the pruned record by the city key runs once
per stored record; on an empty store the generator body never runs, the save
returns normally and appends the record without a city key. -/
theorem C10_missing_city (ent : Entry) (co : Option CoordResult)
    (h : ent.city = none) :
    save_entry_to_database ent co [] = .ok [prune (final_entry_raw ent co)]
    ∧ ∀ (e : PEntry) (db : List PEntry),
        save_entry_to_database ent co (e :: db) = .error "KeyError: city" := by
  have hc : lookupF (prune (final_entry_raw ent co)) "city" = none := by
    have h0 : lookupRaw (final_entry_raw ent co) "city"
        = some (ent.city.map FieldVal.str) := rfl
    rw [h] at h0
    exact lookupF_prune_final _ _ _ _ h0
  constructor
  · rfl
  · intro e db
    have hd : dupMatch (prune (final_entry_raw ent co)) e = .error "KeyError: city" := by
      simp only [dupMatch, hc]
    have hsc : scanDup (prune (final_entry_raw ent co)) (e :: db)
        = .error "KeyError: city" := by
      simp only [scanDup, hd]
    simp only [save_entry_to_database, hsc]

/-- Witness for the amended claim C10 at the empty extracted entry. -/
theorem C10_missing_city_witness :
    save_entry_to_database {} none [] = .ok [[("hookup_type", FieldVal.str "full")]]
    ∧ save_entry_to_database {} none [[("hookup_type", FieldVal.str "full")]]
        = .error "KeyError: city" := by
  have h := C10_missing_city {} none rfl
  exact ⟨h.1.trans (by rfl), h.2 [("hookup_type", FieldVal.str "full")] []⟩

/-- Counterexample to claim C10 as stated: on an empty store, saving an entry
with no city value returns normally and persists a record, instead of
raising. -/
theorem C10_counterexample :
    save_entry_to_database { cg_notes := some "x" } none []
      = .ok [[("hookup_type", FieldVal.str "full"), ("cg_notes", FieldVal.str "x")]] := rfl

/-! Section 20: deduplication on save (claim C4). -/

/-- The duplicate condition of lines 430 to 433 as a total boolean predicate
on a stored record, relative to the new final record: city, state and
campground name all equal. -/
def dupKeyMatch (final u : PEntry) : Bool :=
  decide (lookupF u "city" = lookupF final "city")
    && decide (lookupF u "state" = lookupF final "state")
    && decide (cgNameTotal u = cgNameTotal final)

theorem cgNameTotal_of_ok (e : PEntry) (r : Option String)
    (h : getCgName e = Except.ok r) : cgNameTotal e = r := by
  cases hl : lookupF e "campground" with
  | none =>
    simp only [getCgName, hl, Except.ok.injEq] at h
    simp only [cgNameTotal, hl]
    exact h
  | some v =>
    cases v with
    | obj n l =>
      simp only [getCgName, hl, Except.ok.injEq] at h
      simp only [cgNameTotal, hl]
      exact h
    | str sv =>
      simp only [getCgName, hl] at h
      exact absurd h (by simp)
    | objList items =>
      simp only [getCgName, hl] at h
      exact absurd h (by simp)
    | num nv =>
      simp only [getCgName, hl] at h
      exact absurd h (by simp)

theorem dupMatch_eq (final u : PEntry) (fc fs : FieldVal) (r ru : Option String)
    (hc : lookupF final "city" = some fc) (hs : lookupF final "state" = some fs)
    (hf : getCgName final = Except.ok r) (hu : getCgName u = Except.ok ru) :
    dupMatch final u = Except.ok (dupKeyMatch final u) := by
  have hru := cgNameTotal_of_ok u ru hu
  have hr := cgNameTotal_of_ok final r hf
  simp only [dupMatch, hc, hs, hu, hf]
  by_cases h1 : lookupF u "city" = some fc
  · by_cases h2 : lookupF u "state" = some fs
    · simp only [if_pos h1, if_pos h2, Except.ok.injEq]
      simp [dupKeyMatch, hc, hs, h1, h2, hru, hr]
    · simp only [if_pos h1, if_neg h2, Except.ok.injEq]
      simp [dupKeyMatch, hs, h2]
  · simp only [if_neg h1, Except.ok.injEq]
    simp [dupKeyMatch, hc, h1]

theorem scanDup_eq (final : PEntry) (fc fs : FieldVal) (r : Option String)
    (hc : lookupF final "city" = some fc) (hs : lookupF final "state" = some fs)
    (hf : getCgName final = Except.ok r) :
    ∀ db : List PEntry, (∀ u ∈ db, ∃ ru, getCgName u = Except.ok ru) →
      scanDup final db = Except.ok (db.find? (dupKeyMatch final)) := by
  intro db
  induction db with
  | nil => intro _; rfl
  | cons e rest ih =>
    intro hdb
    obtain ⟨ru, hru⟩ := hdb e (List.mem_cons_self e rest)
    have hd := dupMatch_eq final e fc fs r ru hc hs hf hru
    cases hb : dupKeyMatch final e with
    | true =>
      rw [hb] at hd
      simp only [scanDup, hd]
      rw [List.find?_cons_of_pos _ hb]
    | false =>
      rw [hb] at hd
      simp only [scanDup, hd]
      rw [List.find?_cons_of_neg _ (by simp [hb])]
      exact ih (fun u hu => hdb u (List.mem_cons_of_mem e hu))

/-- Position of the first stored record satisfying the predicate, the index
the script replaces at. -/
def firstMatchIdx (p : PEntry → Bool) : List PEntry → Option Nat
  | [] => none
  | e :: rest => if p e then some 0 else (firstMatchIdx p rest).map (· + 1)

theorem firstMatchIdx_eq_none_iff (p : PEntry → Bool) :
    ∀ l, firstMatchIdx p l = none ↔ l.find? p = none := by
  intro l
  induction l with
  | nil => simp [firstMatchIdx]
  | cons e rest ih =>
    cases hb : p e with
    | true =>
      rw [List.find?_cons_of_pos _ hb]
      simp [firstMatchIdx, hb]
    | false =>
      rw [List.find?_cons_of_neg _ (by simp [hb])]
      simp [firstMatchIdx, hb, ih]

theorem find?_some_firstMatchIdx (p : PEntry → Bool) :
    ∀ (l : List PEntry) (ex : PEntry), l.find? p = some ex →
      ∃ i, firstMatchIdx p l = some i ∧ idxOfP ex l = i := by
  intro l
  induction l with
  | nil => intro ex h; simp [List.find?] at h
  | cons e rest ih =>
    intro ex h
    cases hb : p e with
    | true =>
      rw [List.find?_cons_of_pos _ hb] at h
      have he : e = ex := by injection h
      refine ⟨0, ?_, ?_⟩
      · simp [firstMatchIdx, hb]
      · simp [idxOfP, he]
    | false =>
      rw [List.find?_cons_of_neg _ (by simp [hb])] at h
      obtain ⟨i, h1, h2⟩ := ih ex h
      have hpe : p ex = true := List.find?_some h
      have hne : e ≠ ex := by
        intro hee
        rw [hee, hpe] at hb
        cases hb
      refine ⟨i + 1, ?_, ?_⟩
      · simp [firstMatchIdx, hb, h1]
      · simp [idxOfP, hne, h2]

theorem append_single_replace (p : PEntry → Bool) (f g : PEntry) :
    ∀ db : List PEntry, (∀ u ∈ db, p u = false) → p f = true →
      (db ++ [f]).find? p = some f
      ∧ (db ++ [f]).set (idxOfP f (db ++ [f])) g = db ++ [g] := by
  intro db
  induction db with
  | nil =>
    intro _ hf
    constructor
    · exact List.find?_cons_of_pos _ hf
    · simp [idxOfP]
  | cons e rest ih =>
    intro hdb hf
    have hpe := hdb e (List.mem_cons_self e rest)
    have hne : e ≠ f := by
      intro hee
      rw [hee, hf] at hpe
      cases hpe
    obtain ⟨ih1, ih2⟩ := ih (fun u hu => hdb u (List.mem_cons_of_mem e hu)) hf
    constructor
    · rw [List.cons_append, List.find?_cons_of_neg _ (by simp [hpe])]
      exact ih1
    · rw [List.cons_append]
      have hidx : idxOfP f (e :: (rest ++ [f])) = idxOfP f (rest ++ [f]) + 1 := by
        simp [idxOfP, hne]
      rw [hidx, List.set_cons_succ, ih2, ← List.cons_append]

/-- The key facts about the pruned final record when city and state are
present: its city, state and campground-name projections. -/
theorem final_facts (ent : Entry) (co : Option CoordResult) (c s : String)
    (hc : ent.city = some c) (hs : ent.state = some s) :
    lookupF (prune (final_entry_raw ent co)) "city" = some (FieldVal.str c)
    ∧ lookupF (prune (final_entry_raw ent co)) "state" = some (FieldVal.str s)
    ∧ getCgName (prune (final_entry_raw ent co))
        = Except.ok (ent.campground.map Prod.fst)
    ∧ cgNameTotal (prune (final_entry_raw ent co)) = ent.campground.map Prod.fst := by
  have h0 : lookupRaw (final_entry_raw ent co) "city"
      = some (ent.city.map FieldVal.str) := rfl
  rw [hc] at h0
  have hfc := lookupF_prune_final ent co "city" _ h0
  have h1 : lookupRaw (final_entry_raw ent co) "state"
      = some (ent.state.map FieldVal.str) := rfl
  rw [hs] at h1
  have hfs := lookupF_prune_final ent co "state" _ h1
  have hcamp : lookupF (prune (final_entry_raw ent co)) "campground"
      = ent.campground.map (fun p => FieldVal.obj p.1 p.2) :=
    lookupF_prune_final _ _ _ _ rfl
  have hget : getCgName (prune (final_entry_raw ent co))
      = Except.ok (ent.campground.map Prod.fst) := by
    cases hcg : ent.campground with
    | none =>
      rw [hcg] at hcamp
      simp only [getCgName, hcamp, Option.map_none]
      rfl
    | some pr =>
      obtain ⟨n, lk⟩ := pr
      rw [hcg] at hcamp
      simp only [getCgName, hcamp]
      rfl
  exact ⟨hfc, hfs, hget, cgNameTotal_of_ok _ _ hget⟩

/-- Claim C4: a stored entry matches the new one exactly when city, state and
campground name are all equal under exact string equality; on a match the
stored record is replaced in place at its original position, otherwise the
new record is appended; and saving the same key twice into a store with no
prior match yields exactly one matching record, holding the second save
content, at the original index. -/
theorem C4_dedup (ent : Entry) (co : Option CoordResult) (db : List PEntry)
    (c s : String) (hc : ent.city = some c) (hs : ent.state = some s)
    (hdb : ∀ u ∈ db, ∃ r, getCgName u = Except.ok r) :
    (∀ u, dupKeyMatch (prune (final_entry_raw ent co)) u = true ↔
        (lookupF u "city" = some (FieldVal.str c)
         ∧ lookupF u "state" = some (FieldVal.str s)
         ∧ cgNameTotal u = ent.campground.map Prod.fst))
    ∧ save_entry_to_database ent co db
        = Except.ok
            (match firstMatchIdx (dupKeyMatch (prune (final_entry_raw ent co))) db with
             | some i => db.set i (prune (final_entry_raw ent co))
             | none => db ++ [prune (final_entry_raw ent co)])
    ∧ (firstMatchIdx (dupKeyMatch (prune (final_entry_raw ent co))) db = none →
        ∀ (ent2 : Entry) (co2 : Option CoordResult),
          ent2.city = some c → ent2.state = some s →
          ent2.campground.map Prod.fst = ent.campground.map Prod.fst →
          save_entry_to_database ent co db
              = Except.ok (db ++ [prune (final_entry_raw ent co)])
          ∧ save_entry_to_database ent2 co2 (db ++ [prune (final_entry_raw ent co)])
              = Except.ok (db ++ [prune (final_entry_raw ent2 co2)])
          ∧ (db ++ [prune (final_entry_raw ent2 co2)]).countP
              (dupKeyMatch (prune (final_entry_raw ent2 co2))) = 1) := by
  obtain ⟨hfc, hfs, hfget, hfcgn⟩ := final_facts ent co c s hc hs
  have hscan := scanDup_eq (prune (final_entry_raw ent co)) (FieldVal.str c)
    (FieldVal.str s) (ent.campground.map Prod.fst) hfc hfs hfget db hdb
  refine ⟨?_, ?_, ?_⟩
  · intro u
    simp [dupKeyMatch, hfc, hfs, hfcgn, Bool.and_eq_true, decide_eq_true_eq, and_assoc]
  · cases hfind : db.find? (dupKeyMatch (prune (final_entry_raw ent co))) with
    | none =>
      have hmi := (firstMatchIdx_eq_none_iff (dupKeyMatch (prune (final_entry_raw ent co))) db).mpr hfind
      simp only [save_entry_to_database, hscan, hfind, hmi]
    | some ex =>
      obtain ⟨i, h1, h2⟩ :=
        find?_some_firstMatchIdx (dupKeyMatch (prune (final_entry_raw ent co))) db ex hfind
      simp only [save_entry_to_database, hscan, hfind, h1, h2]
  · intro hnone ent2 co2 hc2 hs2 hcg2
    obtain ⟨hfc2, hfs2, hfget2, hfcgn2⟩ := final_facts ent2 co2 c s hc2 hs2
    have hfind : db.find? (dupKeyMatch (prune (final_entry_raw ent co))) = none :=
      (firstMatchIdx_eq_none_iff _ _).mp hnone
    have hfun : dupKeyMatch (prune (final_entry_raw ent co))
        = dupKeyMatch (prune (final_entry_raw ent2 co2)) := by
      funext u
      simp [dupKeyMatch, hfc, hfs, hfcgn, hfc2, hfs2, hfcgn2, hcg2]
    have hallfalse : ∀ u ∈ db, dupKeyMatch (prune (final_entry_raw ent2 co2)) u = false := by
      intro u hu
      have h := List.find?_eq_none.mp (hfun ▸ hfind) u hu
      exact Bool.eq_false_iff.mpr h
    have hdb1 : ∀ u ∈ db ++ [prune (final_entry_raw ent co)],
        ∃ r, getCgName u = Except.ok r := by
      intro u hu
      rcases List.mem_append.mp hu with hu | hu
      · exact hdb u hu
      · simp only [List.mem_singleton] at hu
        subst hu
        exact ⟨_, hfget⟩
    have hscan2 := scanDup_eq (prune (final_entry_raw ent2 co2)) (FieldVal.str c)
      (FieldVal.str s) (ent2.campground.map Prod.fst) hfc2 hfs2 hfget2
      (db ++ [prune (final_entry_raw ent co)]) hdb1
    have hpf : dupKeyMatch (prune (final_entry_raw ent2 co2))
        (prune (final_entry_raw ent co)) = true := by
      simp [dupKeyMatch, hfc, hfs, hfcgn, hfc2, hfs2, hfcgn2, hcg2]
    obtain ⟨hfindap, hsetap⟩ :=
      append_single_replace (dupKeyMatch (prune (final_entry_raw ent2 co2)))
        (prune (final_entry_raw ent co)) (prune (final_entry_raw ent2 co2))
        db hallfalse hpf
    refine ⟨?_, ?_, ?_⟩
    · simp only [save_entry_to_database, hscan, hfind]
    · simp only [save_entry_to_database, hscan2, hfindap, hsetap]
    · rw [List.countP_append]
      have h0 : db.countP (dupKeyMatch (prune (final_entry_raw ent2 co2))) = 0 :=
        List.countP_eq_zero.mpr (fun u hu => by simp [hallfalse u hu])
      have h1 : [prune (final_entry_raw ent2 co2)].countP
          (dupKeyMatch (prune (final_entry_raw ent2 co2))) = 1 := by
        simp [List.countP_cons, dupKeyMatch]
      rw [h0, h1]

/-- Witness for claim C4: saving a concrete entry twice with different notes
leaves exactly one stored record, at the original index, with the second
save content. -/
theorem C4_dedup_witness :
    save_entry_to_database
        { city := some "Asheville", state := some "NC",
          campground := some ("Lake Lure", none), cg_notes := some "old" } none []
      = Except.ok [prune (final_entry_raw
          { city := some "Asheville", state := some "NC",
            campground := some ("Lake Lure", none), cg_notes := some "old" } none)]
    ∧ save_entry_to_database
        { city := some "Asheville", state := some "NC",
          campground := some ("Lake Lure", none), cg_notes := some "new" } none
        [prune (final_entry_raw
          { city := some "Asheville", state := some "NC",
            campground := some ("Lake Lure", none), cg_notes := some "old" } none)]
      = Except.ok [prune (final_entry_raw
          { city := some "Asheville", state := some "NC",
            campground := some ("Lake Lure", none), cg_notes := some "new" } none)] := by
  have h := (C4_dedup
    { city := some "Asheville", state := some "NC",
      campground := some ("Lake Lure", none), cg_notes := some "old" } none []
    "Asheville" "NC" rfl rfl (by intro u hu; simp at hu)).2.2 rfl
    { city := some "Asheville", state := some "NC",
      campground := some ("Lake Lure", none), cg_notes := some "new" } none rfl rfl rfl
  exact ⟨h.1, h.2.1⟩
